import Mathlib

/-!
Verification development for `url-sync-flat` (`src/index.ts`), a utility that
synchronizes a flat key/value state with the URL query representation.

Modelling conventions (shallow embedding of the TypeScript source):

* JS numbers are modelled as exact decimal numbers (`JsDec`): a sign, an
  integer part and a list of fraction digits.  This abstracts IEEE-754
  rounding and the exponent display forms of very large/small numbers;
  every number the code produces here arises from `Number(v)` on text of
  the shape `[+-]?digits(.digits)?`, for which the decimal model is exact,
  and `Number.isNaN` is never true on such text.
* `URLSearchParams` is modelled as an ordered list of key/value pairs
  (`QP`).  `get` returns the first match, `set` replaces the first match
  in place and drops later duplicates, `delete` removes every match,
  iteration follows list order.  Percent-encoding is abstracted away:
  the real `URLSearchParams` string round-trip is faithful, so the query
  text is represented directly by its parsed pair list; both router types
  (`browser` and `hash`) expose exactly the query text they own, so they
  are modelled uniformly.  `typeof window === 'undefined'` is modelled by
  the context `Ctx := Option QP` being `none`.
* A JS flat-state record is modelled as `StateRec` (an ordered list of
  keys bound to `Option Prim`; a key bound to `none` is a key present with
  value `undefined`, exactly as `Record<string, ... | undefined>` allows).
  Read results and defaults are modelled by their access function
  `StateFun := String -> Option Prim`, since the code only ever reads them
  by key.  JS string `.length`/`.slice`/`.startsWith` are modelled on the
  character list of the string.
* The source option field `prefix` is called `pfx` here.
-/

/-- An exact decimal number: `(-1)^neg * (ip + 0.d1 d2 ...)`.
Models the JS numbers produced by `Number(v)` in `parsePrimitive`. -/
structure JsDec where
  neg : Bool
  ip : Nat
  fr : List Nat
  deriving DecidableEq, Repr

/-- A JS primitive value: `string | number | boolean`
(the value space of `UrlSyncFlatState`, minus `undefined`). -/
inductive Prim where
  | s (v : String)
  | n (d : JsDec)
  | b (v : Bool)
  deriving DecidableEq, Repr

/-- Leading sign of numeric text: `'-'` / `'+'` / none. -/
def stripSign : List Char → Bool × List Char
  | '-' :: t => (true, t)
  | '+' :: t => (false, t)
  | l => (false, l)

/-- The test `/^[+-]?\d+(\.\d+)?$/.test v` from `parsePrimitive`
(src/index.ts line 40): an optional sign, one or more digits, and an
optional dot followed by one or more digits. -/
def matchesNumRe (v : String) : Bool :=
  let l := (stripSign v.data).2
  let ds := l.takeWhile Char.isDigit
  let rest := l.dropWhile Char.isDigit
  !ds.isEmpty &&
    (match rest with
     | [] => true
     | '.' :: fs => !fs.isEmpty && fs.all Char.isDigit
     | _ => false)

/-- Value of a list of decimal digit characters. -/
def natOfDigits (l : List Char) : Nat :=
  l.foldl (fun a c => a * 10 + (c.toNat - 48)) 0

/-- Drop trailing zero digits of a fraction. -/
def dropTrailingZeros (l : List Nat) : List Nat :=
  (l.reverse.dropWhile (· = 0)).reverse

/-- Normal form of a decimal: no trailing fraction zeros and no `-0`,
matching how JS stores and re-prints the parsed number. -/
def normDec (d : JsDec) : JsDec :=
  let fr := dropTrailingZeros d.fr
  if d.ip = 0 ∧ fr = [] then ⟨false, 0, []⟩ else ⟨d.neg, d.ip, fr⟩

/-- The conversion `Number(v)` for text accepted by `matchesNumRe` (on such text the
conversion is never `NaN`, so the `Number.isNaN` guard at line 42 of the
source never fires). -/
def jsNumber (v : String) : JsDec :=
  let p := stripSign v.data
  let ds := p.2.takeWhile Char.isDigit
  let rest := p.2.dropWhile Char.isDigit
  let fr := match rest with
            | '.' :: fs => fs.map (fun c => c.toNat - 48)
            | _ => []
  normDec ⟨p.1, natOfDigits ds, fr⟩

/-- The decoder `parsePrimitive` (src/index.ts lines 35-45): `null` stays absent,
`"true"`/`"false"` become booleans, text matching the numeric regex
becomes a number, everything else is returned as the raw string. -/
def parsePrimitive (v : Option String) : Option Prim :=
  match v with
  | none => none
  | some s =>
    if s = "true" then some (Prim.b true)
    else if s = "false" then some (Prim.b false)
    else if matchesNumRe s then some (Prim.n (jsNumber s))
    else some (Prim.s s)

/-- Digit character of a digit value. -/
def digitChar (d : Nat) : Char := Char.ofNat (48 + d)

/-- The conversion `String(val)` (src/index.ts lines 152 and 163) on a primitive:
strings unchanged, booleans as their literals, numbers printed as
sign, integer part and optional fraction digits. -/
def encodePrim : Prim → String
  | Prim.s v => v
  | Prim.b true => "true"
  | Prim.b false => "false"
  | Prim.n d =>
      (if d.neg then "-" else "") ++ Nat.repr d.ip ++
        (if d.fr.isEmpty then "" else "." ++ String.mk (d.fr.map digitChar))

/-- The query representation: an ordered list of key/value pairs,
as held by `URLSearchParams`. -/
abbrev QP := List (String × String)

/-- Lookup `URLSearchParams.get`: value of the first entry with the key,
`none` when the key is absent (JS returns `null`). -/
def qpGet (qp : QP) (k : String) : Option String :=
  (qp.find? (fun e => e.1 = k)).map (·.2)

/-- Removal `URLSearchParams.delete`: removes every entry with the key. -/
def qpDelete (qp : QP) (k : String) : QP :=
  qp.filter (fun e => e.1 ≠ k)

/-- Update `URLSearchParams.set`: replaces the value of the first entry with the
key in place and removes later duplicates; appends when absent. -/
def qpSet : QP → String → String → QP
  | [], k, v => [(k, v)]
  | e :: t, k, v => if e.1 = k then (k, v) :: qpDelete t k else e :: qpSet t k v

/-- A flat-state record (`UrlSyncFlatState`): ordered keys, each bound to
a primitive or to `undefined` (`none`). -/
abbrev StateRec := List (String × Option Prim)

/-- Property access `state[f]`: `undefined` both for a missing key and for
a key bound to `undefined`. -/
def sGet (s : StateRec) (f : String) : Option Prim :=
  match s.find? (fun e => e.1 = f) with
  | some e => e.2
  | none => none

/-- The read `state ? state[f] : undefined` (src/index.ts line 146). -/
def sGetOpt (state : Option StateRec) (f : String) : Option Prim :=
  match state with
  | some s => sGet s f
  | none => none

/-- Access view of a flat-state object: what `result[k]` yields. -/
abbrev StateFun := String → Option Prim

/-- Assignment `res[k] = v` seen through the access view. -/
def updateFun (res : StateFun) (k : String) (v : Option Prim) : StateFun :=
  fun q => if q = k then v else res q

/-- The option `routerType`: `'browser' | 'hash'`. -/
inductive RouterType where
  | browser
  | hash
  deriving DecidableEq, Repr

/-- Engine configuration (`Required<UrlSyncFlatOptions>`); the source
field `prefix` is named `pfx`. -/
structure UrlSyncFlatOptions where
  pfx : String
  fields : List String
  replaceState : Bool
  debounceMs : Nat
  routerType : RouterType
  deriving DecidableEq, Repr

/-- The `DEFAULTS` constant (src/index.ts lines 23-29). -/
def DEFAULTS : UrlSyncFlatOptions :=
  ⟨"", [], true, 200, RouterType.hash⟩

/-- The helper `keyOf` (src/index.ts lines 31-33): prepend the prefix when it is
non-empty (JS truthiness of a string). -/
def keyOf (p : String) (k : String) : String :=
  if p = "" then k else p ++ k

/-- The browser context: `none` models `typeof window === 'undefined'`;
otherwise the current query representation of the address. -/
abbrev Ctx := Option QP

/-- The reader `readQueryString` (src/index.ts lines 52-59): without a window the
query text is empty; otherwise both router types return exactly the query
text they own, represented by its parsed pair list. -/
def readQueryString (rt : RouterType) (ctx : Ctx) : QP :=
  match rt, ctx with
  | _, none => []
  | _, some qp => qp

/-- The writer `writeQueryString` (src/index.ts lines 66-84): a no-op without a
window; otherwise commits the new query representation (the history-stack
side of `replaceState`/`pushState` is outside the model). -/
def writeQueryString (rt : RouterType) (ctx : Ctx) (qp : QP) (rep : Bool) : Ctx :=
  match rt, rep, ctx with
  | _, _, none => none
  | _, _, some _ => some qp

/-- One step of the fields-mode read loop (src/index.ts lines 110-117):
look up `prefix+f`, fall back to the bare `f`, decode, and assign only
when the decoded value is present. -/
def readFieldsStep (p : String) (qp : QP) (res : StateFun) (f : String) : StateFun :=
  let v := match qpGet qp (keyOf p f) with
           | some x => some x
           | none => qpGet qp f
  match parsePrimitive v with
  | some parsed => updateFun res f (some parsed)
  | none => res

/-- One step of the wildcard read loop (src/index.ts lines 120-127):
strip a non-empty prefix when the key carries it, then assign the decoded
value. -/
def readAllStep (p : String) (res : StateFun) (e : String × String) : StateFun :=
  if p ≠ "" ∧ List.isPrefixOf p.data e.1.data then
    updateFun res ⟨e.1.data.drop p.data.length⟩ (parsePrimitive (some e.2))
  else
    updateFun res e.1 (parsePrimitive (some e.2))

/-- The name under which a wildcard-mode query key is emitted
(src/index.ts lines 121-125). -/
def emitKey (p : String) (k : String) : String :=
  if p ≠ "" ∧ List.isPrefixOf p.data k.data then ⟨k.data.drop p.data.length⟩ else k

/-- The projector `readInitialState` (src/index.ts lines 100-131). -/
def readInitialState (opts : UrlSyncFlatOptions) (ctx : Ctx) (defaults : StateFun) : StateFun :=
  match ctx with
  | none => defaults
  | some _ =>
    let qp := readQueryString opts.routerType ctx
    if opts.fields ≠ [] then
      opts.fields.foldl (readFieldsStep opts.pfx qp) defaults
    else
      qp.foldl (readAllStep opts.pfx) defaults

/-- One step of the fields-mode serialize loop (src/index.ts lines
145-154): an absent or empty-string value deletes both the prefixed and
the bare key, any other value sets the prefixed key to its encoding. -/
def serStep (p : String) (state : Option StateRec) (qp : QP) (f : String) : QP :=
  let val := sGetOpt state f
  let k := keyOf p f
  match val with
  | none => qpDelete (qpDelete qp k) f
  | some v =>
      if v = Prim.s "" then qpDelete (qpDelete qp k) f
      else qpSet qp k (encodePrim v)

/-- One step of the wildcard serialize loop (src/index.ts lines 156-165);
`val == undefined` coincides with `val === undefined` on this value
space. -/
def serAllStep (p : String) (s : StateRec) (qp : QP) (f : String) : QP :=
  let val := sGet s f
  let k := keyOf p f
  match val with
  | none => qpDelete (qpDelete qp k) f
  | some v =>
      if v = Prim.s "" then qpDelete (qpDelete qp k) f
      else qpSet qp k (encodePrim v)

/-- The query-representation mutation performed by `serializeStateToUrl`
(src/index.ts lines 144-166). -/
def serializeQP (opts : UrlSyncFlatOptions) (state : Option StateRec) (qp : QP) : QP :=
  if opts.fields ≠ [] then
    opts.fields.foldl (serStep opts.pfx state) qp
  else
    match state with
    | some s => (s.map (·.1)).foldl (serAllStep opts.pfx s) qp
    | none => qp

/-- The serializer `serializeStateToUrl` (src/index.ts lines 138-169): a no-op without a
window; otherwise reads the query fresh, applies the per-field rules and
writes the result back. -/
def serializeStateToUrl (opts : UrlSyncFlatOptions) (ctx : Ctx) (state : Option StateRec) : Ctx :=
  match ctx with
  | none => none
  | some _ =>
    let qp := readQueryString opts.routerType ctx
    writeQueryString opts.routerType ctx (serializeQP opts state qp) opts.replaceState

/-- The per-field serialize rule as worded by the specification: if the
field's value in the state is absent or an empty string, both the
prefixed key and the bare field key are deleted from the representation;
otherwise the prefixed key is set to the encoded value.  (Spec §4.3;
deletions stated bare-key first, the order the spec lists them in.) -/
def specSerializeFieldRule (p : String) (state : Option StateRec) (qp : QP)
    (f : String) : QP :=
  if sGetOpt state f = none ∨ sGetOpt state f = some (Prim.s "") then
    qpDelete (qpDelete qp f) (keyOf p f)
  else
    match sGetOpt state f with
    | some v => qpSet qp (keyOf p f) (encodePrim v)
    | none => qp

/-- The query keys a `serializeStateToUrl` call may touch: prefixed and
bare names of the configured fields, or of the state's own keys in
wildcard mode.  Every other key is foreign to the call. -/
def touchedKeys (opts : UrlSyncFlatOptions) (state : Option StateRec) : List String :=
  if opts.fields ≠ [] then
    opts.fields.flatMap (fun f => [keyOf opts.pfx f, f])
  else
    match state with
    | some s => (s.map (·.1)).flatMap (fun f => [keyOf opts.pfx f, f])
    | none => []

/-- The debounce scheduler's state: `idle`, or `pending` with the state
snapshot captured by the installed timer (src/index.ts line 88 and the
closure at lines 212-215). -/
inductive Sched where
  | idle
  | pending (snap : Option StateRec)
  deriving DecidableEq

/-- Scheduler events: `schedule(s)`, timer expiry, `flush(s)`,
`cancel()`. -/
inductive Ev where
  | sched (s : Option StateRec)
  | tick
  | flushEv (s : Option StateRec)
  | cancelEv

/-- One scheduler transition on (timer state, browser context, write log);
the log records the state snapshot of each `serializeStateToUrl` call.
`sched`: without a window nothing happens; otherwise a pending timer is
cleared (its snapshot discarded) and a new one installed (lines 209-216).
`tick`: a pending timer fires, writes its snapshot and clears itself
(lines 212-215); no timer, no write.  `flushEv`: without a window nothing
happens; otherwise the pending timer (if any) is cleared and the argument
is written immediately (lines 218-225).  `cancelEv`: clears the timer
without writing (lines 227-232). -/
def schedStep (opts : UrlSyncFlatOptions) :
    Sched × Ctx × List (Option StateRec) → Ev → Sched × Ctx × List (Option StateRec)
  | (m, ctx, log), Ev.sched s =>
      match ctx with
      | none => (m, ctx, log)
      | some _ => (Sched.pending s, ctx, log)
  | (m, ctx, log), Ev.tick =>
      match m with
      | Sched.pending snap => (Sched.idle, serializeStateToUrl opts ctx snap, log ++ [snap])
      | Sched.idle => (Sched.idle, ctx, log)
  | (m, ctx, log), Ev.flushEv s =>
      match ctx with
      | none => (m, ctx, log)
      | some _ => (Sched.idle, serializeStateToUrl opts ctx s, log ++ [s])
  | (_, ctx, log), Ev.cancelEv => (Sched.idle, ctx, log)

/-- Run a sequence of scheduler events from a given timer state and
context, with an empty write log. -/
def runEvents (opts : UrlSyncFlatOptions) (m : Sched) (ctx : Ctx) (evs : List Ev) :
    Sched × Ctx × List (Option StateRec) :=
  evs.foldl (schedStep opts) (m, ctx, [])

/-- The value the fields-mode read loop computes for one field
(src/index.ts lines 112-113): look up `prefix+f`, fall back to the bare
`f` when the prefixed key is absent (`??`), then decode. -/
def fieldVal (p : String) (qp : QP) (f : String) : Option Prim :=
  parsePrimitive (match qpGet qp (keyOf p f) with
                  | some x => some x
                  | none => qpGet qp f)

/-- A state value is codec-stable at `f` when decoding its encoded text
yields the value back (vacuously true when `f` is absent). -/
def stableAtB (state : StateRec) (f : String) : Bool :=
  match sGet state f with
  | some v => decide (parsePrimitive (some (encodePrim v)) = some v)
  | none => true

/-- All entries of the representation carrying a given key, in order. -/
def keyEntries (qp : QP) (k : String) : QP :=
  qp.filter (fun e => e.1 = k)


theorem qpGet_cons (e : String × String) (t : QP) (k : String) :
    qpGet (e :: t) k = if e.1 = k then some e.2 else qpGet t k := by
  by_cases h : e.1 = k <;> simp [qpGet, List.find?_cons, h]

theorem qpGet_delete (qp : QP) (k k' : String) :
    qpGet (qpDelete qp k') k = if k = k' then none else qpGet qp k := by
  induction qp with
  | nil => by_cases h : k = k' <;> simp [qpDelete, qpGet, h]
  | cons e t ih =>
    by_cases he : e.1 = k'
    · have : qpDelete (e :: t) k' = qpDelete t k' := by
        simp [qpDelete, List.filter_cons, he]
      rw [this, ih, qpGet_cons]
      by_cases hk : k = k'
      · simp [hk]
      · have : e.1 ≠ k := by
          intro hek; exact hk (hek ▸ he ▸ rfl)
        simp [this, hk]
    · have : qpDelete (e :: t) k' = e :: qpDelete t k' := by
        simp [qpDelete, List.filter_cons, he]
      rw [this, qpGet_cons, qpGet_cons, ih]
      by_cases hek : e.1 = k
      · have hk : ¬ k = k' := fun hkk => he (hek.trans hkk)
        simp [hek, hk]
      · simp [hek]

theorem qpGet_set (qp : QP) (k k' v : String) :
    qpGet (qpSet qp k' v) k = if k = k' then some v else qpGet qp k := by
  induction qp with
  | nil =>
    by_cases h : k = k' <;>
      simp [qpSet, qpGet_cons, h, qpGet, Eq.comm]
  | cons e t ih =>
    by_cases he : e.1 = k'
    · have : qpSet (e :: t) k' v = (k', v) :: qpDelete t k' := by
        simp [qpSet, he]
      rw [this, qpGet_cons]
      by_cases hk : k = k'
      · simp [hk]
      · have h1 : ¬ (k' = k) := fun h => hk h.symm
        have h2 : e.1 ≠ k := fun hek => hk (by rw [← hek, he])
        simp [h1, qpGet_delete, hk, qpGet_cons, h2]
    · have : qpSet (e :: t) k' v = e :: qpSet t k' v := by
        simp [qpSet, he]
      rw [this, qpGet_cons, qpGet_cons, ih]
      by_cases hek : e.1 = k
      · have hk : ¬ k = k' := fun hkk => he (hek.trans hkk)
        simp [hek, hk]
      · simp [hek]

theorem keyEntries_cons (e : String × String) (t : QP) (k : String) :
    keyEntries (e :: t) k = if e.1 = k then e :: keyEntries t k else keyEntries t k := by
  by_cases h : e.1 = k <;> simp [keyEntries, List.filter_cons, h]

theorem keyEntries_delete_ne (qp : QP) (k k' : String) (h : k ≠ k') :
    keyEntries (qpDelete qp k') k = keyEntries qp k := by
  unfold keyEntries qpDelete
  rw [List.filter_filter]
  apply List.filter_congr
  intro a _
  by_cases ha : a.1 = k
  · have hne : a.1 ≠ k' := fun hh => h (ha.symm.trans hh)
    simp [ha, hne, h]
  · simp [ha]

theorem keyEntries_set_ne (qp : QP) (k k' v : String) (h : k ≠ k') :
    keyEntries (qpSet qp k' v) k = keyEntries qp k := by
  induction qp with
  | nil =>
    have h1 : ¬ ((k', v).1 = k) := fun hh => h hh.symm
    simp [qpSet, keyEntries, List.filter_cons, h1]
  | cons e t ih =>
    by_cases he : e.1 = k'
    · have hs : qpSet (e :: t) k' v = (k', v) :: qpDelete t k' := by
        simp [qpSet, he]
      have h1 : ¬ ((k', v).1 = k) := fun hh => h hh.symm
      have hek : ¬ (e.1 = k) := fun hh => h (hh.symm.trans he)
      rw [hs, keyEntries_cons, keyEntries_cons, if_neg h1, if_neg hek]
      exact keyEntries_delete_ne t k k' h
    · have hs : qpSet (e :: t) k' v = e :: qpSet t k' v := by
        simp [qpSet, he]
      rw [hs, keyEntries_cons, keyEntries_cons, ih]

theorem qpDelete_comm (qp : QP) (a b : String) :
    qpDelete (qpDelete qp a) b = qpDelete (qpDelete qp b) a := by
  unfold qpDelete
  rw [List.filter_filter, List.filter_filter]
  apply List.filter_congr
  intro e _
  exact Bool.and_comm _ _

theorem keyOf_inj (p f g : String) (h : keyOf p f = keyOf p g) : f = g := by
  unfold keyOf at h
  by_cases hp : p = ""
  · simpa [hp] using h
  · simp only [hp, if_neg, ite_false] at h
    have hd := congrArg String.data h
    simp only [String.data_append] at hd
    exact String.ext (List.append_cancel_left hd)

theorem readQueryString_some (rt : RouterType) (qp : QP) :
    readQueryString rt (some qp) = qp := by
  cases rt <;> rfl

theorem readQueryString_none (rt : RouterType) :
    readQueryString rt none = [] := by
  cases rt <;> rfl

theorem writeQueryString_some (rt : RouterType) (qp qp' : QP) (rep : Bool) :
    writeQueryString rt (some qp) qp' rep = some qp' := by
  cases rt <;> cases rep <;> rfl

theorem writeQueryString_none (rt : RouterType) (qp' : QP) (rep : Bool) :
    writeQueryString rt none qp' rep = none := by
  cases rt <;> cases rep <;> rfl

theorem serializeStateToUrl_some (opts : UrlSyncFlatOptions) (qp : QP)
    (state : Option StateRec) :
    serializeStateToUrl opts (some qp) state = some (serializeQP opts state qp) := by
  unfold serializeStateToUrl
  rw [readQueryString_some, writeQueryString_some]

theorem readInitialState_some (opts : UrlSyncFlatOptions) (qp : QP) (defaults : StateFun) :
    readInitialState opts (some qp) defaults =
      if opts.fields ≠ [] then
        opts.fields.foldl (readFieldsStep opts.pfx qp) defaults
      else
        qp.foldl (readAllStep opts.pfx) defaults := by
  unfold readInitialState
  rw [readQueryString_some]

theorem parsePrimitive_some_eq (s : String) :
    parsePrimitive (some s) =
      if s = "true" then some (Prim.b true)
      else if s = "false" then some (Prim.b false)
      else if matchesNumRe s then some (Prim.n (jsNumber s))
      else some (Prim.s s) := rfl

theorem parsePrimitive_some_isSome (s : String) : (parsePrimitive (some s)).isSome := by
  rw [parsePrimitive_some_eq]
  split
  · simp
  split
  · simp
  split <;> simp

theorem readFieldsStep_eq (p : String) (qp : QP) (res : StateFun) (f : String) :
    readFieldsStep p qp res f =
      match fieldVal p qp f with
      | some x => updateFun res f (some x)
      | none => res := rfl

theorem readFields_foldl (p : String) (qp : QP) (l : List String) (res : StateFun)
    (f : String) :
    (l.foldl (readFieldsStep p qp) res) f =
      if f ∈ l ∧ (fieldVal p qp f).isSome then fieldVal p qp f else res f := by
  induction l generalizing res with
  | nil => simp
  | cons g t ih =>
    rw [List.foldl_cons, ih, readFieldsStep_eq]
    by_cases hfg : f = g
    · subst hfg
      cases hv : fieldVal p qp f with
      | some x => simp [hv, updateFun]
      | none => simp [hv]
    · cases hv : fieldVal p qp g with
      | some x => simp [hv, updateFun, hfg, List.mem_cons]
      | none => simp [hv, hfg, List.mem_cons]

theorem readAllStep_eq (p : String) (res : StateFun) (e : String × String) :
    readAllStep p res e = updateFun res (emitKey p e.1) (parsePrimitive (some e.2)) := by
  unfold readAllStep emitKey
  by_cases h : (p ≠ "" ∧ List.isPrefixOf p.data e.1.data)
  · rw [if_pos h, if_pos h]
  · rw [if_neg h, if_neg h]

theorem readAll_foldl (p : String) (l : QP) (res : StateFun) (nm : String) :
    (l.foldl (readAllStep p) res) nm =
      match l.reverse.find? (fun e => emitKey p e.1 = nm) with
      | some e => parsePrimitive (some e.2)
      | none => res nm := by
  induction l generalizing res with
  | nil => simp
  | cons e t ih =>
    rw [List.foldl_cons, ih, List.reverse_cons, List.find?_append]
    cases hf : t.reverse.find? (fun e => emitKey p e.1 = nm) with
    | some x => simp [Option.or]
    | none =>
      simp only [Option.or]
      rw [readAllStep_eq]
      by_cases he : emitKey p e.1 = nm
      · rw [List.find?_cons_of_pos _ (by simp [he])]
        simp [updateFun, he]
      · rw [List.find?_cons_of_neg _ (by simp [he])]
        have hne : nm ≠ emitKey p e.1 := fun hh => he hh.symm
        simp [updateFun, hne]

theorem serAllStep_eq (p : String) (s : StateRec) :
    serAllStep p s = serStep p (some s) := rfl

theorem serStep_present_self (p : String) (state : Option StateRec) (f : String)
    (v : Prim) (qp : QP) (hv : sGetOpt state f = some v) (hvne : v ≠ Prim.s "") :
    serStep p state qp f = qpSet qp (keyOf p f) (encodePrim v) := by
  unfold serStep
  rw [hv]
  simp [hvne]

theorem serStep_absent_self (p : String) (state : Option StateRec) (f : String) (qp : QP)
    (hv : sGetOpt state f = none ∨ sGetOpt state f = some (Prim.s "")) :
    serStep p state qp f = qpDelete (qpDelete qp (keyOf p f)) f := by
  unfold serStep
  rcases hv with h | h <;> rw [h] <;> simp

theorem serStep_eq_spec (p : String) (state : Option StateRec) (qp : QP) (f : String) :
    serStep p state qp f = specSerializeFieldRule p state qp f := by
  cases hval : sGetOpt state f with
  | none =>
    rw [serStep_absent_self p state f qp (Or.inl hval)]
    unfold specSerializeFieldRule
    simp [hval, qpDelete_comm]
  | some v =>
    by_cases hv : v = Prim.s ""
    · rw [serStep_absent_self p state f qp (Or.inr (by rw [hval, hv]))]
      unfold specSerializeFieldRule
      simp [hval, hv, qpDelete_comm]
    · rw [serStep_present_self p state f v qp hval hv]
      unfold specSerializeFieldRule
      simp [hval, hv]

theorem qpGet_serStep_ne (p : String) (state : Option StateRec) (g : String) (qp : QP)
    (k : String) (h1 : k ≠ keyOf p g) (h2 : k ≠ g) :
    qpGet (serStep p state qp g) k = qpGet qp k := by
  cases hval : sGetOpt state g with
  | none =>
    rw [serStep_absent_self p state g qp (Or.inl hval)]
    simp [qpGet_delete, h1, h2]
  | some v =>
    by_cases hv : v = Prim.s ""
    · rw [serStep_absent_self p state g qp (Or.inr (by rw [hval, hv]))]
      simp [qpGet_delete, h1, h2]
    · rw [serStep_present_self p state g v qp hval hv]
      simp [qpGet_set, h1]

theorem keyEntries_serStep_ne (p : String) (state : Option StateRec) (g : String) (qp : QP)
    (k : String) (h1 : k ≠ keyOf p g) (h2 : k ≠ g) :
    keyEntries (serStep p state qp g) k = keyEntries qp k := by
  cases hval : sGetOpt state g with
  | none =>
    rw [serStep_absent_self p state g qp (Or.inl hval)]
    rw [keyEntries_delete_ne _ _ _ h2, keyEntries_delete_ne _ _ _ h1]
  | some v =>
    by_cases hv : v = Prim.s ""
    · rw [serStep_absent_self p state g qp (Or.inr (by rw [hval, hv]))]
      rw [keyEntries_delete_ne _ _ _ h2, keyEntries_delete_ne _ _ _ h1]
    · rw [serStep_present_self p state g v qp hval hv]
      rw [keyEntries_set_ne _ _ _ _ h1]

theorem qpGet_serFold_ne (p : String) (state : Option StateRec) (k : String) :
    ∀ (l : List String), (∀ g ∈ l, k ≠ keyOf p g ∧ k ≠ g) → ∀ (qp : QP),
      qpGet (l.foldl (serStep p state) qp) k = qpGet qp k
  | [], _, _ => rfl
  | g :: t, h, qp => by
    rw [List.foldl_cons,
        qpGet_serFold_ne p state k t (fun x hx => h x (List.mem_cons_of_mem g hx)) _,
        qpGet_serStep_ne p state g qp k (h g (List.mem_cons_self g t)).1
          (h g (List.mem_cons_self g t)).2]

theorem keyEntries_serFold_ne (p : String) (state : Option StateRec) (k : String) :
    ∀ (l : List String), (∀ g ∈ l, k ≠ keyOf p g ∧ k ≠ g) → ∀ (qp : QP),
      keyEntries (l.foldl (serStep p state) qp) k = keyEntries qp k
  | [], _, _ => rfl
  | g :: t, h, qp => by
    rw [List.foldl_cons,
        keyEntries_serFold_ne p state k t (fun x hx => h x (List.mem_cons_of_mem g hx)) _,
        keyEntries_serStep_ne p state g qp k (h g (List.mem_cons_self g t)).1
          (h g (List.mem_cons_self g t)).2]

theorem qpGet_serStep_present (p : String) (state : Option StateRec) (F : List String)
    (Hsep : ∀ a ∈ F, ∀ b ∈ F, keyOf p a = b → a = b)
    (f g : String) (hf : f ∈ F) (hg : g ∈ F) (v : Prim)
    (hv : sGetOpt state f = some v) (hvne : v ≠ Prim.s "") (qp : QP)
    (hqp : qpGet qp (keyOf p f) = some (encodePrim v)) :
    qpGet (serStep p state qp g) (keyOf p f) = some (encodePrim v) := by
  by_cases hfg : g = f
  · subst hfg
    rw [serStep_present_self p state g v qp hv hvne]
    simp [qpGet_set]
  · cases hval : sGetOpt state g with
    | none =>
      have h1 : keyOf p f ≠ g := fun hh => hfg ((Hsep f hf g hg hh).symm)
      have h2 : keyOf p f ≠ keyOf p g := fun hh => hfg ((keyOf_inj p f g hh).symm)
      rw [serStep_absent_self p state g qp (Or.inl hval)]
      simp [qpGet_delete, h1, h2, hqp]
    | some w =>
      by_cases hw : w = Prim.s ""
      · have h1 : keyOf p f ≠ g := fun hh => hfg ((Hsep f hf g hg hh).symm)
        have h2 : keyOf p f ≠ keyOf p g := fun hh => hfg ((keyOf_inj p f g hh).symm)
        rw [serStep_absent_self p state g qp (Or.inr (by rw [hval, hw]))]
        simp [qpGet_delete, h1, h2, hqp]
      · have h2 : keyOf p f ≠ keyOf p g := fun hh => hfg ((keyOf_inj p f g hh).symm)
        rw [serStep_present_self p state g w qp hval hw]
        simp [qpGet_set, h2, hqp]

theorem qpGet_serFold_present (p : String) (state : Option StateRec) (F : List String)
    (Hsep : ∀ a ∈ F, ∀ b ∈ F, keyOf p a = b → a = b)
    (f : String) (v : Prim) (hf : f ∈ F)
    (hv : sGetOpt state f = some v) (hvne : v ≠ Prim.s "") :
    ∀ (l : List String), (∀ g ∈ l, g ∈ F) → ∀ (qp : QP),
      qpGet qp (keyOf p f) = some (encodePrim v) →
      qpGet (l.foldl (serStep p state) qp) (keyOf p f) = some (encodePrim v)
  | [], _, _, hqp => hqp
  | g :: t, hl, qp, hqp => by
    rw [List.foldl_cons]
    exact qpGet_serFold_present p state F Hsep f v hf hv hvne t
      (fun x hx => hl x (List.mem_cons_of_mem g hx)) _
      (qpGet_serStep_present p state F Hsep f g hf (hl g (List.mem_cons_self g t)) v
        hv hvne qp hqp)

theorem serFields_present (p : String) (state : Option StateRec) (F : List String)
    (Hsep : ∀ a ∈ F, ∀ b ∈ F, keyOf p a = b → a = b)
    (f : String) (v : Prim) (hfF : f ∈ F)
    (hv : sGetOpt state f = some v) (hvne : v ≠ Prim.s "") :
    ∀ (l : List String), (∀ g ∈ l, g ∈ F) → f ∈ l → ∀ (qp : QP),
      qpGet (l.foldl (serStep p state) qp) (keyOf p f) = some (encodePrim v)
  | [], _, hfl, _ => absurd hfl (List.not_mem_nil f)
  | g :: t, hl, hfl, qp => by
    rw [List.foldl_cons]
    by_cases hft : f ∈ t
    · exact serFields_present p state F Hsep f v hfF hv hvne t
        (fun x hx => hl x (List.mem_cons_of_mem g hx)) hft _
    · have hfg : f = g := by
        rcases List.mem_cons.mp hfl with h | h
        · exact h
        · exact absurd h hft
      subst hfg
      apply qpGet_serFold_present p state F Hsep f v hfF hv hvne t
        (fun x hx => hl x (List.mem_cons_of_mem f hx))
      rw [serStep_present_self p state f v qp hv hvne]
      simp [qpGet_set]

theorem serStep_absent_pres (p : String) (state : Option StateRec) (F : List String)
    (Hsep : ∀ a ∈ F, ∀ b ∈ F, keyOf p a = b → a = b)
    (f g : String) (hf : f ∈ F) (hg : g ∈ F)
    (hvf : sGetOpt state f = none ∨ sGetOpt state f = some (Prim.s "")) (qp : QP)
    (h1 : qpGet qp (keyOf p f) = none) (h2 : qpGet qp f = none) :
    qpGet (serStep p state qp g) (keyOf p f) = none ∧
      qpGet (serStep p state qp g) f = none := by
  cases hval : sGetOpt state g with
  | none =>
    rw [serStep_absent_self p state g qp (Or.inl hval)]
    constructor <;> simp [qpGet_delete, h1, h2]
  | some w =>
    by_cases hw : w = Prim.s ""
    · rw [serStep_absent_self p state g qp (Or.inr (by rw [hval, hw]))]
      constructor <;> simp [qpGet_delete, h1, h2]
    · have hfg : g ≠ f := by
        intro hh
        subst hh
        rcases hvf with h | h
        · rw [hval] at h; exact Option.noConfusion h
        · rw [hval] at h
          exact hw (Option.some.inj h)
      have ha : keyOf p f ≠ keyOf p g := fun hh => hfg (keyOf_inj p g f hh.symm)
      have hb : f ≠ keyOf p g := fun hh => hfg (Hsep g hg f hf hh.symm)
      rw [serStep_present_self p state g w qp hval hw]
      constructor <;> simp [qpGet_set, ha, hb, h1, h2]

theorem qpGet_serFold_absent (p : String) (state : Option StateRec) (F : List String)
    (Hsep : ∀ a ∈ F, ∀ b ∈ F, keyOf p a = b → a = b)
    (f : String) (hf : f ∈ F)
    (hvf : sGetOpt state f = none ∨ sGetOpt state f = some (Prim.s "")) :
    ∀ (l : List String), (∀ g ∈ l, g ∈ F) → ∀ (qp : QP),
      qpGet qp (keyOf p f) = none → qpGet qp f = none →
      qpGet (l.foldl (serStep p state) qp) (keyOf p f) = none ∧
        qpGet (l.foldl (serStep p state) qp) f = none
  | [], _, _, h1, h2 => ⟨h1, h2⟩
  | g :: t, hl, qp, h1, h2 => by
    rw [List.foldl_cons]
    have hstep := serStep_absent_pres p state F Hsep f g hf (hl g (List.mem_cons_self g t))
      hvf qp h1 h2
    exact qpGet_serFold_absent p state F Hsep f hf hvf t
      (fun x hx => hl x (List.mem_cons_of_mem g hx)) _ hstep.1 hstep.2

theorem serFields_absent (p : String) (state : Option StateRec) (F : List String)
    (Hsep : ∀ a ∈ F, ∀ b ∈ F, keyOf p a = b → a = b)
    (f : String) (hfF : f ∈ F)
    (hvf : sGetOpt state f = none ∨ sGetOpt state f = some (Prim.s "")) :
    ∀ (l : List String), (∀ g ∈ l, g ∈ F) → f ∈ l → ∀ (qp : QP),
      qpGet (l.foldl (serStep p state) qp) (keyOf p f) = none ∧
        qpGet (l.foldl (serStep p state) qp) f = none
  | [], _, hfl, _ => absurd hfl (List.not_mem_nil f)
  | g :: t, hl, hfl, qp => by
    rw [List.foldl_cons]
    by_cases hft : f ∈ t
    · exact serFields_absent p state F Hsep f hfF hvf t
        (fun x hx => hl x (List.mem_cons_of_mem g hx)) hft _
    · have hfg : f = g := by
        rcases List.mem_cons.mp hfl with h | h
        · exact h
        · exact absurd h hft
      subst hfg
      apply qpGet_serFold_absent p state F Hsep f hfF hvf t
        (fun x hx => hl x (List.mem_cons_of_mem f hx))
      · rw [serStep_absent_self p state f qp hvf]
        simp [qpGet_delete]
      · rw [serStep_absent_self p state f qp hvf]
        simp [qpGet_delete]

theorem serializeQP_fields (opts : UrlSyncFlatOptions) (state : Option StateRec)
    (qp : QP) (hf : opts.fields ≠ []) :
    serializeQP opts state qp = opts.fields.foldl (serStep opts.pfx state) qp := by
  unfold serializeQP
  rw [if_pos hf]

theorem serializeQP_wildcard (opts : UrlSyncFlatOptions) (s : StateRec) (qp : QP)
    (hf : opts.fields = []) :
    serializeQP opts (some s) qp =
      (s.map (·.1)).foldl (serStep opts.pfx (some s)) qp := by
  unfold serializeQP
  rw [if_neg (fun h => h hf)]
  show (s.map (·.1)).foldl (serAllStep opts.pfx s) qp = _
  rw [serAllStep_eq]

theorem serializeQP_wildcard_none (opts : UrlSyncFlatOptions) (qp : QP)
    (hf : opts.fields = []) :
    serializeQP opts none qp = qp := by
  unfold serializeQP
  rw [if_neg (fun h => h hf)]

theorem runEvents_idle_ticks (opts : UrlSyncFlatOptions) (ctx : Ctx) (n : Nat) :
    runEvents opts Sched.idle ctx (List.replicate n Ev.tick) = (Sched.idle, ctx, []) := by
  induction n with
  | zero => rfl
  | succ m ih =>
    rw [List.replicate_succ]
    unfold runEvents at ih ⊢
    rw [List.foldl_cons]
    exact ih

/-- C2: `parsePrimitive` maps an absent input to absent, the literals
`"true"`/`"false"` to the corresponding booleans, text matching the
numeric pattern `[+-]?digits(.digits)?` to its numeric value (on such
text `Number` is never `NaN`, so the raw-string fallback of that branch
never fires), and all other text to itself; decoding a present string
always yields a present value (decoding never fails). -/
theorem c2_decode_total :
    parsePrimitive none = none ∧
    parsePrimitive (some "true") = some (Prim.b true) ∧
    parsePrimitive (some "false") = some (Prim.b false) ∧
    (∀ v : String, v ≠ "true" → v ≠ "false" → matchesNumRe v = true →
      parsePrimitive (some v) = some (Prim.n (jsNumber v))) ∧
    (∀ v : String, v ≠ "true" → v ≠ "false" → matchesNumRe v = false →
      parsePrimitive (some v) = some (Prim.s v)) ∧
    (∀ v : String, (parsePrimitive (some v)).isSome) := by
  refine ⟨rfl, by decide, by decide, ?_, ?_, parsePrimitive_some_isSome⟩
  · intro v h1 h2 h3
    rw [parsePrimitive_some_eq, if_neg h1, if_neg h2, if_pos h3]
  · intro v h1 h2 h3
    rw [parsePrimitive_some_eq, if_neg h1, if_neg h2, if_neg (by simp [h3])]

theorem c2_decode_total_witness :
    parsePrimitive (some "12.5") = some (Prim.n (jsNumber "12.5")) :=
  c2_decode_total.2.2.2.1 "12.5" (by decide) (by decide) (by decide)

/-- C7: after `schedule(A)` then `schedule(B)`, waiting out the debounce
interval (the timer tick) performs exactly one write, and that write is
of `B`; the superseded snapshot `A` is discarded, never merged and never
written, and once idle further ticks never write. -/
theorem c7_schedule_supersedes (opts : UrlSyncFlatOptions) (qp : QP)
    (A B : Option StateRec) :
    runEvents opts Sched.idle (some qp) [Ev.sched A, Ev.sched B, Ev.tick, Ev.tick]
      = (Sched.idle, serializeStateToUrl opts (some qp) B, [B]) ∧
    (∀ (ctx : Ctx) (n : Nat),
      runEvents opts Sched.idle ctx (List.replicate n Ev.tick) = (Sched.idle, ctx, [])) :=
  ⟨rfl, fun ctx n => runEvents_idle_ticks opts ctx n⟩

/-- C8: with a snapshot `B` pending, `flush(C)` cancels the timer,
immediately performs exactly one write of the argument `C` (not of the
superseded `B`), leaves the scheduler idle, and no later tick writes `B`
(from idle, ticks never write). -/
theorem c8_flush_immediate (opts : UrlSyncFlatOptions) (qp : QP)
    (B C : Option StateRec) :
    runEvents opts (Sched.pending B) (some qp) [Ev.flushEv C, Ev.tick]
      = (Sched.idle, serializeStateToUrl opts (some qp) C, [C]) ∧
    (∀ (ctx : Ctx) (n : Nat),
      runEvents opts Sched.idle ctx (List.replicate n Ev.tick) = (Sched.idle, ctx, [])) :=
  ⟨rfl, fun ctx n => runEvents_idle_ticks opts ctx n⟩

/-- C9: without a browser context (`window` undefined, modelled as a
`none` context) reads return the supplied defaults and the empty query
text, and writes are no-ops: `readInitialState` returns the defaults,
`readQueryString` the empty query, `writeQueryString` and
`serializeStateToUrl` change nothing; being total functions, none of
these operations can fail. -/
theorem c9_no_window_noop (opts : UrlSyncFlatOptions) (defaults : StateFun)
    (rt : RouterType) (qp' : QP) (rep : Bool) (state : Option StateRec) :
    readInitialState opts none defaults = defaults ∧
    readQueryString rt none = [] ∧
    writeQueryString rt none qp' rep = none ∧
    serializeStateToUrl opts none state = none :=
  ⟨rfl, readQueryString_none rt, writeQueryString_none rt qp' rep, rfl⟩

/-- C3: in fields mode (non-empty allow-list), `readInitialState` reads
each configured field by looking up the prefixed key first with the bare
name as fallback, decodes it, and lets a present decoded value overwrite
the default while an absent one keeps the default; keys outside the
field list never enter the result from the URL.  Concretely, with query
`t_page=2&t_flag=true&other=hello`, prefix `t_`, fields
`[page, flag, missing]` and default `missing = 5`, the result is
`{page: 2, flag: true, missing: 5}` with `other` excluded. -/
theorem c3_read_fields_mode (opts : UrlSyncFlatOptions) (qp : QP) (defaults : StateFun)
    (hf : opts.fields ≠ []) :
    (∀ f ∈ opts.fields,
      readInitialState opts (some qp) defaults f =
        match fieldVal opts.pfx qp f with
        | some x => some x
        | none => defaults f) ∧
    (∀ k, k ∉ opts.fields → readInitialState opts (some qp) defaults k = defaults k) ∧
    (readInitialState ⟨"t_", ["page", "flag", "missing"], true, 200, RouterType.hash⟩
        (some [("t_page", "2"), ("t_flag", "true"), ("other", "hello")])
        (fun k => if k = "missing" then some (Prim.n ⟨false, 5, []⟩) else none) "page"
        = some (Prim.n ⟨false, 2, []⟩) ∧
      readInitialState ⟨"t_", ["page", "flag", "missing"], true, 200, RouterType.hash⟩
        (some [("t_page", "2"), ("t_flag", "true"), ("other", "hello")])
        (fun k => if k = "missing" then some (Prim.n ⟨false, 5, []⟩) else none) "flag"
        = some (Prim.b true) ∧
      readInitialState ⟨"t_", ["page", "flag", "missing"], true, 200, RouterType.hash⟩
        (some [("t_page", "2"), ("t_flag", "true"), ("other", "hello")])
        (fun k => if k = "missing" then some (Prim.n ⟨false, 5, []⟩) else none) "missing"
        = some (Prim.n ⟨false, 5, []⟩) ∧
      readInitialState ⟨"t_", ["page", "flag", "missing"], true, 200, RouterType.hash⟩
        (some [("t_page", "2"), ("t_flag", "true"), ("other", "hello")])
        (fun k => if k = "missing" then some (Prim.n ⟨false, 5, []⟩) else none) "other"
        = none) := by
  refine ⟨?_, ?_, by decide, by decide, by decide, by decide⟩
  · intro f hfmem
    rw [readInitialState_some, if_pos hf, readFields_foldl]
    cases hv : fieldVal opts.pfx qp f with
    | some x => rw [if_pos ⟨hfmem, by simp [hv]⟩]
    | none => rw [if_neg (by simp [hv])]
  · intro k hk
    rw [readInitialState_some, if_pos hf, readFields_foldl, if_neg (fun hc => hk hc.1)]

theorem c3_read_fields_mode_witness :
    readInitialState ⟨"t_", ["page", "flag", "missing"], true, 200, RouterType.hash⟩
      (some [("t_page", "2"), ("t_flag", "true"), ("other", "hello")])
      (fun k => if k = "missing" then some (Prim.n ⟨false, 5, []⟩) else none) "other"
      = none := by
  have h := (c3_read_fields_mode
      ⟨"t_", ["page", "flag", "missing"], true, 200, RouterType.hash⟩
      [("t_page", "2"), ("t_flag", "true"), ("other", "hello")]
      (fun k => if k = "missing" then some (Prim.n ⟨false, 5, []⟩) else none)
      (by decide)).2.1 "other" (by decide)
  exact h.trans (by decide)

/-- C4: in wildcard mode (empty field list), `readInitialState` includes
every key of the query representation: a key starting with a non-empty
configured prefix is re-emitted with the prefix stripped, any other key
as-is (so foreign keys leak into the result); when exactly one query
entry emits a given name, the result carries that entry's decoded value.
Concretely, with query `a=1&pref_x=hello&pref_y=10&z=false` and prefix
`pref_`, the result is `{a: 1, x: 'hello', y: 10, z: false}`. -/
theorem c4_read_wildcard_mode (opts : UrlSyncFlatOptions) (qp : QP) (defaults : StateFun)
    (hf : opts.fields = []) :
    (∀ k v, (k, v) ∈ qp →
      (readInitialState opts (some qp) defaults (emitKey opts.pfx k)).isSome) ∧
    (∀ k v, (k, v) ∈ qp →
      (∀ e ∈ qp, emitKey opts.pfx e.1 = emitKey opts.pfx k → e = (k, v)) →
      readInitialState opts (some qp) defaults (emitKey opts.pfx k) =
        parsePrimitive (some v)) ∧
    (readInitialState ⟨"pref_", [], true, 200, RouterType.hash⟩
        (some [("a", "1"), ("pref_x", "hello"), ("pref_y", "10"), ("z", "false")])
        (fun _ => none) "a" = some (Prim.n ⟨false, 1, []⟩) ∧
      readInitialState ⟨"pref_", [], true, 200, RouterType.hash⟩
        (some [("a", "1"), ("pref_x", "hello"), ("pref_y", "10"), ("z", "false")])
        (fun _ => none) "x" = some (Prim.s "hello") ∧
      readInitialState ⟨"pref_", [], true, 200, RouterType.hash⟩
        (some [("a", "1"), ("pref_x", "hello"), ("pref_y", "10"), ("z", "false")])
        (fun _ => none) "y" = some (Prim.n ⟨false, 10, []⟩) ∧
      readInitialState ⟨"pref_", [], true, 200, RouterType.hash⟩
        (some [("a", "1"), ("pref_x", "hello"), ("pref_y", "10"), ("z", "false")])
        (fun _ => none) "z" = some (Prim.b false)) := by
  refine ⟨?_, ?_, by decide, by decide, by decide, by decide⟩
  · intro k v hkv
    rw [readInitialState_some, if_neg (fun h => h hf), readAll_foldl]
    cases hfind : qp.reverse.find? (fun e => emitKey opts.pfx e.1 = emitKey opts.pfx k) with
    | some e => exact parsePrimitive_some_isSome e.2
    | none =>
      exfalso
      have hex : (qp.reverse.find?
          (fun e => emitKey opts.pfx e.1 = emitKey opts.pfx k)).isSome :=
        List.find?_isSome.mpr ⟨(k, v), List.mem_reverse.mpr hkv, by simp⟩
      rw [hfind] at hex
      simp at hex
  · intro k v hkv huniq
    rw [readInitialState_some, if_neg (fun h => h hf), readAll_foldl]
    cases hfind : qp.reverse.find? (fun e => emitKey opts.pfx e.1 = emitKey opts.pfx k) with
    | none =>
      exfalso
      have hex : (qp.reverse.find?
          (fun e => emitKey opts.pfx e.1 = emitKey opts.pfx k)).isSome :=
        List.find?_isSome.mpr ⟨(k, v), List.mem_reverse.mpr hkv, by simp⟩
      rw [hfind] at hex
      simp at hex
    | some e =>
      have he1 : e ∈ qp := List.mem_reverse.mp (List.mem_of_find?_eq_some hfind)
      have he2 : emitKey opts.pfx e.1 = emitKey opts.pfx k := by
        have := List.find?_some hfind
        simpa using this
      rw [huniq e he1 he2]

theorem c4_read_wildcard_mode_witness :
    (readInitialState ⟨"pref_", [], true, 200, RouterType.hash⟩
      (some [("a", "1"), ("pref_x", "hello")]) (fun _ => none)
      (emitKey "pref_" "pref_x")).isSome :=
  (c4_read_wildcard_mode ⟨"pref_", [], true, 200, RouterType.hash⟩
    [("a", "1"), ("pref_x", "hello")] (fun _ => none) rfl).1 "pref_x" "hello" (by decide)

theorem serializeQP_frame (opts : UrlSyncFlatOptions) (state : Option StateRec)
    (qp : QP) (k : String) (hk : k ∉ touchedKeys opts state) :
    qpGet (serializeQP opts state qp) k = qpGet qp k ∧
    keyEntries (serializeQP opts state qp) k = keyEntries qp k := by
  by_cases hf : opts.fields ≠ []
  · rw [serializeQP_fields opts state qp hf]
    have hcond : ∀ g ∈ opts.fields, k ≠ keyOf opts.pfx g ∧ k ≠ g := by
      intro g hg
      constructor
      · intro hh
        apply hk
        unfold touchedKeys
        rw [if_pos hf]
        exact List.mem_flatMap.mpr ⟨g, hg, by simp [hh]⟩
      · intro hh
        apply hk
        unfold touchedKeys
        rw [if_pos hf]
        exact List.mem_flatMap.mpr ⟨g, hg, by simp [hh]⟩
    exact ⟨qpGet_serFold_ne opts.pfx state k opts.fields hcond qp,
      keyEntries_serFold_ne opts.pfx state k opts.fields hcond qp⟩
  · have hfe : opts.fields = [] := not_not.mp (fun h => hf h)
    cases state with
    | none => rw [serializeQP_wildcard_none opts qp hfe]; exact ⟨rfl, rfl⟩
    | some s =>
      rw [serializeQP_wildcard opts s qp hfe]
      have hcond : ∀ g ∈ s.map (·.1), k ≠ keyOf opts.pfx g ∧ k ≠ g := by
        intro g hg
        constructor
        · intro hh
          apply hk
          unfold touchedKeys
          rw [if_neg (fun h => h hfe)]
          exact List.mem_flatMap.mpr ⟨g, hg, by simp [hh]⟩
        · intro hh
          apply hk
          unfold touchedKeys
          rw [if_neg (fun h => h hfe)]
          exact List.mem_flatMap.mpr ⟨g, hg, by simp [hh]⟩
      exact ⟨qpGet_serFold_ne opts.pfx (some s) k (s.map (·.1)) hcond qp,
        keyEntries_serFold_ne opts.pfx (some s) k (s.map (·.1)) hcond qp⟩

/-- C5: a `serializeStateToUrl` call leaves every foreign query key (one
not targeted by the call's set/delete rule: neither a prefixed nor a bare
name of a configured field — or, in wildcard mode, of a state key)
present and unchanged, both as first-match lookup and as the full ordered
list of entries under that key; with a window present the whole call is
exactly this query-representation mutation. -/
theorem c5_foreign_keys_preserved (opts : UrlSyncFlatOptions) (state : Option StateRec)
    (qp : QP) (k : String) (hk : k ∉ touchedKeys opts state) :
    qpGet (serializeQP opts state qp) k = qpGet qp k ∧
    keyEntries (serializeQP opts state qp) k = keyEntries qp k ∧
    serializeStateToUrl opts (some qp) state = some (serializeQP opts state qp) :=
  ⟨(serializeQP_frame opts state qp k hk).1, (serializeQP_frame opts state qp k hk).2,
    serializeStateToUrl_some opts qp state⟩

theorem c5_foreign_keys_preserved_witness :
    qpGet (serializeQP ⟨"p_", ["a"], true, 200, RouterType.hash⟩
        (some [("a", some (Prim.s "x"))]) [("keep", "1")]) "keep"
      = qpGet [("keep", "1")] "keep" :=
  (c5_foreign_keys_preserved ⟨"p_", ["a"], true, 200, RouterType.hash⟩
    (some [("a", some (Prim.s "x"))]) [("keep", "1")] "keep" (by decide)).1

/-- C6: in fields mode, `serializeStateToUrl` applies, field by field in
list order, exactly the rule the specification states: an absent or
empty-string value deletes both the prefixed and the bare key, any other
value sets the prefixed key to its encoding.  Concretely, with query
`keep=1`, prefix `p_`, fields `[a, b]` and state `{a: 'x', b: absent}`,
the resulting query keeps `keep=1`, carries `p_a=x`, and has neither
`p_b` nor bare `b`. -/
theorem c6_serialize_fields_rule (opts : UrlSyncFlatOptions) (state : Option StateRec)
    (qp : QP) (hf : opts.fields ≠ []) :
    serializeQP opts state qp =
      opts.fields.foldl (specSerializeFieldRule opts.pfx state) qp ∧
    (qpGet (serializeQP ⟨"p_", ["a", "b"], true, 200, RouterType.hash⟩
        (some [("a", some (Prim.s "x"))]) [("keep", "1")]) "keep" = some "1" ∧
      qpGet (serializeQP ⟨"p_", ["a", "b"], true, 200, RouterType.hash⟩
        (some [("a", some (Prim.s "x"))]) [("keep", "1")]) "p_a" = some "x" ∧
      qpGet (serializeQP ⟨"p_", ["a", "b"], true, 200, RouterType.hash⟩
        (some [("a", some (Prim.s "x"))]) [("keep", "1")]) "p_b" = none ∧
      qpGet (serializeQP ⟨"p_", ["a", "b"], true, 200, RouterType.hash⟩
        (some [("a", some (Prim.s "x"))]) [("keep", "1")]) "b" = none) := by
  constructor
  · rw [serializeQP_fields opts state qp hf]
    have hfun : serStep opts.pfx state = specSerializeFieldRule opts.pfx state :=
      funext fun q => funext fun f => serStep_eq_spec opts.pfx state q f
    rw [hfun]
  · exact ⟨by decide, by decide, by decide, by decide⟩

theorem c6_serialize_fields_rule_witness :
    serializeQP ⟨"p_", ["a", "b"], true, 200, RouterType.hash⟩
        (some [("a", some (Prim.s "x"))]) [("keep", "1")]
      = (["a", "b"]).foldl
          (specSerializeFieldRule "p_" (some [("a", some (Prim.s "x"))])) [("keep", "1")] :=
  (c6_serialize_fields_rule ⟨"p_", ["a", "b"], true, 200, RouterType.hash⟩
    (some [("a", some (Prim.s "x"))]) [("keep", "1")] (by decide)).1

/-- C10: a query key present with an empty-string value is present, not
absent, on the read side: the empty string decodes to the empty string,
so in fields mode an empty-valued prefixed key overrides the supplied
default with `""` — while on the write side `serializeStateToUrl` treats
an empty-string state value as a deletion of both keys, making
present-but-empty keys asymmetric between read and write. -/
theorem c10_empty_string_asymmetry :
    parsePrimitive (some "") = some (Prim.s "") ∧
    (∀ (opts : UrlSyncFlatOptions) (qp : QP) (defaults : StateFun) (f : String),
      opts.fields ≠ [] → f ∈ opts.fields → qpGet qp (keyOf opts.pfx f) = some "" →
      readInitialState opts (some qp) defaults f = some (Prim.s "")) ∧
    qpGet (serializeQP ⟨"p_", ["a"], true, 200, RouterType.hash⟩
      (some [("a", some (Prim.s ""))]) [("p_a", "x"), ("a", "y")]) "p_a" = none ∧
    qpGet (serializeQP ⟨"p_", ["a"], true, 200, RouterType.hash⟩
      (some [("a", some (Prim.s ""))]) [("p_a", "x"), ("a", "y")]) "a" = none := by
  refine ⟨by decide, ?_, by decide, by decide⟩
  intro opts qp defaults f hf hmem hget
  rw [readInitialState_some, if_pos hf, readFields_foldl]
  have hval : fieldVal opts.pfx qp f = some (Prim.s "") := by
    unfold fieldVal
    rw [hget]
    show parsePrimitive (some "") = some (Prim.s "")
    decide
  rw [if_pos ⟨hmem, by simp [hval]⟩, hval]

theorem c10_empty_string_asymmetry_witness :
    readInitialState ⟨"p_", ["a"], true, 200, RouterType.hash⟩ (some [("p_a", "")])
      (fun _ => some (Prim.n ⟨false, 7, []⟩)) "a" = some (Prim.s "") :=
  c10_empty_string_asymmetry.2.1 ⟨"p_", ["a"], true, 200, RouterType.hash⟩
    [("p_a", "")] (fun _ => some (Prim.n ⟨false, 7, []⟩)) "a"
    (by decide) (by decide) (by decide)

/-- C1 (amended): for an engine with a non-empty field allow-list in
which no configured field name equals the (possibly prefixed) key of
another configured field, and a state whose present configured values
are codec-stable (decoding their encoded text yields the value back),
reading immediately after writing yields, for every configured field
whose value was present and not the empty string, a decoded value equal
to the original, and yields nothing (with empty defaults) for every
configured field whose value was absent or the empty string.  The claim
as stated, without these two conditions, is false — see the
counterexample. -/
theorem c1_roundtrip_amended (opts : UrlSyncFlatOptions) (state : StateRec) (qp : QP)
    (hf : opts.fields ≠ [])
    (Hsep : ∀ a ∈ opts.fields, ∀ b ∈ opts.fields, keyOf opts.pfx a = b → a = b)
    (hstable : ∀ f ∈ opts.fields, stableAtB state f = true) :
    ∀ f ∈ opts.fields,
      (∀ v : Prim, sGet state f = some v → v ≠ Prim.s "" →
        readInitialState opts (serializeStateToUrl opts (some qp) (some state))
          (fun _ => none) f = some v) ∧
      ((sGet state f = none ∨ sGet state f = some (Prim.s "")) →
        readInitialState opts (serializeStateToUrl opts (some qp) (some state))
          (fun _ => none) f = none) := by
  intro f hfmem
  rw [serializeStateToUrl_some, serializeQP_fields opts (some state) qp hf]
  constructor
  · intro v hv hvne
    have hser : qpGet (opts.fields.foldl (serStep opts.pfx (some state)) qp)
        (keyOf opts.pfx f) = some (encodePrim v) :=
      serFields_present opts.pfx (some state) opts.fields Hsep f v hfmem hv hvne
        opts.fields (fun x hx => hx) hfmem qp
    rw [readInitialState_some, if_pos hf, readFields_foldl]
    have hval : fieldVal opts.pfx
        (opts.fields.foldl (serStep opts.pfx (some state)) qp) f = some v := by
      unfold fieldVal
      rw [hser]
      have hst := hstable f hfmem
      unfold stableAtB at hst
      rw [hv] at hst
      exact of_decide_eq_true hst
    rw [if_pos ⟨hfmem, by simp [hval]⟩, hval]
  · intro hvf
    have habs := serFields_absent opts.pfx (some state) opts.fields Hsep f hfmem hvf
      opts.fields (fun x hx => hx) hfmem qp
    rw [readInitialState_some, if_pos hf, readFields_foldl]
    have hval : fieldVal opts.pfx
        (opts.fields.foldl (serStep opts.pfx (some state)) qp) f = none := by
      unfold fieldVal
      rw [habs.1, habs.2]
      rfl
    rw [if_neg (by simp [hval])]

/-- C1 counterexample: the claim as stated fails.  With prefix `""`,
fields `[a]`, an empty initial query and the state `{a: "true"}` (the
string), the value is present and non-empty, yet reading back after
writing yields the boolean `true`, which differs from the original
string value. -/
theorem c1_roundtrip_counterexample :
    readInitialState ⟨"", ["a"], true, 200, RouterType.hash⟩
        (serializeStateToUrl ⟨"", ["a"], true, 200, RouterType.hash⟩ (some [])
          (some [("a", some (Prim.s "true"))]))
        (fun _ => none) "a" = some (Prim.b true) ∧
    Prim.b true ≠ Prim.s "true" := by
  constructor
  · decide
  · decide

theorem c1_roundtrip_witness :
    readInitialState ⟨"t_", ["page"], true, 200, RouterType.hash⟩
        (serializeStateToUrl ⟨"t_", ["page"], true, 200, RouterType.hash⟩
          (some [("other", "hello")]) (some [("page", some (Prim.n ⟨false, 2, []⟩))]))
        (fun _ => none) "page" = some (Prim.n ⟨false, 2, []⟩) :=
  ((c1_roundtrip_amended ⟨"t_", ["page"], true, 200, RouterType.hash⟩
      [("page", some (Prim.n ⟨false, 2, []⟩))] [("other", "hello")]
      (by decide) (by decide) (by decide)) "page" (by decide)).1
    (Prim.n ⟨false, 2, []⟩) (by decide) (by decide)
